import Mathlib

/-!
Shallow embedding of the shopify-reviews-scraper pipeline, translated from
src/utils.js, src/scrapeReviews.js, src/discoverApps.js and src/config.js.
Remote page content, the browser session and the filesystem are modelled as
explicit inputs; every function mirrors the control flow of its source
function. Loops are translated with an explicit fuel argument that is chosen
large enough to cover the bound of the source loop.
-/

namespace Scraper

/-- Review record as pushed by extractReviewsFromPage in src/scrapeReviews.js
(the results.push call, lines 105 to 116). The rating field is a number or
the empty string in the source and is modelled as an optional natural. -/
structure Review where
  app_name : String := ""
  app_slug : String := ""
  reviewer_name : String := ""
  reviewer_location : String := ""
  rating : Option Nat := none
  review_date : String := ""
  usage_duration : String := ""
  review_text : String := ""
  developer_response : String := ""
  developer_response_date : String := ""
deriving DecidableEq, Repr

/-- App entity as pushed by extractAppsFromPage in src/discoverApps.js
(lines 354 to 359 of the concatenated file): name, slug, description and
review_count. -/
structure App where
  name : String := ""
  slug : String := ""
  description : String := ""
  review_count : Nat := 0
deriving DecidableEq, Repr

/-- JavaScript Map from app slug to review list, in insertion order. -/
abbrev JsMap := List (String × List Review)

/-- Map.set: replace the value of an existing key in place, otherwise append
the new entry at the end, preserving insertion order. -/
def mapSet : JsMap → String → List Review → JsMap
  | [], k, v => [(k, v)]
  | (k2, v2) :: rest, k, v =>
    if k2 = k then (k2, v) :: rest else (k2, v2) :: mapSet rest k v

/-- Keys of the map in insertion order. -/
def mapKeys : JsMap → List String
  | [] => []
  | (k, _) :: rest => k :: mapKeys rest

/-- The flattening loop of scrapeAllReviews (src/scrapeReviews.js lines
216 to 217 and 221 to 222): bySlug.forEach pushing every per-slug list into
one flat array, in map insertion order. -/
def flattenMap : JsMap → List Review
  | [] => []
  | (_, v) :: rest => v ++ flattenMap rest

/-- One step of the grouping loop of scrapeAllReviews (lines 202 to 205):
ensure the key is present, then push the review at the end of its list. -/
def mapPush : JsMap → String → Review → JsMap
  | [], k, r => [(k, [r])]
  | (k2, v) :: rest, k, r =>
    if k2 = k then (k2, v ++ [r]) :: rest else (k2, v) :: mapPush rest k r

/-- Grouping of a loaded all_reviews checkpoint by app_slug
(src/scrapeReviews.js lines 201 to 205). -/
def groupBySlug (rs : List Review) : JsMap :=
  rs.foldl (fun m r => mapPush m r.app_slug r) []

/-- JavaScript Set.add on a set represented as its insertion-ordered element
list: append the element if it is not present yet. -/
def addToSet (l : List String) (s : String) : List String :=
  if s ∈ l then l else l ++ [s]

/-- JavaScript new Set(array): deduplicate, keeping first occurrences in
order. -/
def setFromList (l : List String) : List String :=
  l.foldl addToSet []

/-- Persistence events emitted by scrapeAllReviews, one constructor per kind
of file written in the entity loop (src/scrapeReviews.js lines 214 to 218):
the scraped_app_slugs.json checkpoint, the per-app data/reviews/slug.json
file, and the all_reviews.json checkpoint. -/
inductive WriteEvent where
  | scrapedSlugs : List String → WriteEvent
  | appReviews : String → List Review → WriteEvent
  | allReviews : List Review → WriteEvent
deriving DecidableEq, Repr

/-- Result of a scrapeAllReviews run: the ordered list of file writes, the
returned flat review list, and whether puppeteer.launch was reached. -/
structure RunResult where
  trace : List WriteEvent
  result : List Review
  openedBrowser : Bool
deriving Repr

/-- The entity loop of scrapeAllReviews (src/scrapeReviews.js lines 208 to
219): for each app, scrape its reviews (abstracted as the fetch oracle), set
them in the bySlug map, add the slug to the scraped set, then write the slug
set checkpoint, the per-app file and the flattened combined checkpoint, in
that order. Returns the trace of writes and the final flattened list
(lines 221 to 223). -/
def processApps (fetch : App → List Review) :
    List App → JsMap → List String → List WriteEvent × List Review
  | [], bySlug, _ => ([], flattenMap bySlug)
  | app :: rest, bySlug, scraped =>
    let reviews := fetch app
    let bySlug2 := mapSet bySlug app.slug reviews
    let scraped2 := addToSet scraped app.slug
    let next := processApps fetch rest bySlug2 scraped2
    (WriteEvent.scrapedSlugs scraped2 ::
      WriteEvent.appReviews app.slug reviews ::
      WriteEvent.allReviews (flattenMap bySlug2) :: next.1,
     next.2)

/-- The resume filter of scrapeAllReviews (src/scrapeReviews.js lines 186 to
188): with a startFromSlug, keep apps matching it or not yet scraped;
otherwise keep apps not yet scraped. -/
def toProcessOf (apps : List App) (scrapedSet : List String) :
    Option String → List App
  | some s => apps.filter (fun a => a.slug == s || decide (a.slug ∉ scrapedSet))
  | none => apps.filter (fun a => decide (a.slug ∉ scrapedSet))

/-- Value of loadCheckpoint for scraped_app_slugs.json at line 183: the
parsed checkpoint under resume, the default empty list otherwise. -/
def loadedScraped (resume : Bool) (scrapedCkpt : List String) : List String :=
  if resume then scrapedCkpt else []

/-- Value of loadCheckpoint for all_reviews.json at line 200: the parsed
checkpoint under resume, the default empty list otherwise. -/
def loadedReviews (resume : Bool) (allReviewsCkpt : List Review) : List Review :=
  if resume then allReviewsCkpt else []

/-- scrapeAllReviews (src/scrapeReviews.js lines 181 to 227). Checkpoint
file contents arrive as already-parsed values (scrapedCkpt for
scraped_app_slugs.json, allReviewsCkpt for all_reviews.json, both with
default empty list), and the per-app scrape result as the fetch oracle.
When nothing remains to process but apps exist, the function returns the
combined checkpoint without launching the browser (lines 190 to 193);
otherwise it runs the entity loop. -/
def scrapeAllReviews (apps : List App) (resume : Bool)
    (startFromSlug : Option String) (scrapedCkpt : List String)
    (allReviewsCkpt : List Review) (fetch : App → List Review) : RunResult :=
  if (toProcessOf apps (setFromList (loadedScraped resume scrapedCkpt))
        startFromSlug).length = 0 ∧ 0 < apps.length then
    { trace := [], result := allReviewsCkpt, openedBrowser := false }
  else
    { trace := (processApps fetch
        (toProcessOf apps (setFromList (loadedScraped resume scrapedCkpt))
          startFromSlug)
        (groupBySlug (loadedReviews resume allReviewsCkpt))
        (setFromList (loadedScraped resume scrapedCkpt))).1,
      result := (processApps fetch
        (toProcessOf apps (setFromList (loadedScraped resume scrapedCkpt))
          startFromSlug)
        (groupBySlug (loadedReviews resume allReviewsCkpt))
        (setFromList (loadedScraped resume scrapedCkpt))).2,
      openedBrowser := true }

/-- Slugs written by appReviews events, in order: the entities the run
actually scraped. -/
def processedSlugs : List WriteEvent → List String
  | [] => []
  | WriteEvent.appReviews s _ :: rest => s :: processedSlugs rest
  | _ :: rest => processedSlugs rest

/-- Lengths of the lists written to all_reviews.json, in write order. -/
def allReviewsLens : List WriteEvent → List Nat
  | [] => []
  | WriteEvent.allReviews f :: rest => f.length :: allReviewsLens rest
  | _ :: rest => allReviewsLens rest

/-- Whether an event writes a scraped-slug set containing the given slug. -/
def marksSlug (s : String) : WriteEvent → Bool
  | WriteEvent.scrapedSlugs l => l.contains s
  | _ => false

/-- Whether an event is the per-app review file write for the given slug. -/
def isAppReviewsFor (s : String) : WriteEvent → Bool
  | WriteEvent.appReviews s2 _ => s2 == s
  | _ => false

/-- Whether an event is an all_reviews.json write. -/
def isAllReviewsWrite : WriteEvent → Bool
  | WriteEvent.allReviews _ => true
  | _ => false

/-- The ordering invariant claimed by the specification: at the first write
of a scraped-slug set containing the slug, both a per-app file write for the
slug and a combined checkpoint write must already have happened earlier in
the trace. -/
def slugMarkedOnlyAfterPersisted (tr : List WriteEvent) (s : String) : Bool :=
  match tr.findIdx? (marksSlug s) with
  | none => true
  | some k => (tr.take k).any (isAppReviewsFor s) && (tr.take k).any isAllReviewsWrite

/-- loadCheckpoint (src/utils.js lines 118 to 124): if the file exists,
parse it and return the result, with any parse failure propagating as a
thrown error; otherwise return the default value. The filesystem is a map
from filename to contents and JSON.parse is a runtime builtin passed as the
parseJson argument. -/
def loadCheckpoint {α : Type} (fileContents : String → Option String)
    (parseJson : String → Except String α) (filename : String)
    (defaultValue : α) : Except String α :=
  match fileContents filename with
  | some content => parseJson content
  | none => Except.ok defaultValue

/-- Observable outcome of a retry call: the settled value (ok none stands
for resolving with undefined, ok some for the operation result, error for a
thrown error), the backoff waits performed between attempts, and how many
times the operation was invoked. -/
structure RetryResult (ε α : Type) where
  result : Except ε (Option α)
  waits : List Nat
  calls : Nat
deriving Repr

/-- The attempt loop of retry (src/utils.js lines 100 to 113), with the
operation given per attempt number. The loop runs while attempt is at most
maxRetries; maxRetries is an integer so that non-positive arguments behave
as in JavaScript. The fuel argument only bounds the recursion and is chosen
in retry so that it never runs out before the loop condition fails. -/
def retryGo {ε α : Type} (fn : Nat → Except ε α) (maxRetries : Int)
    (baseDelayMs : Nat) : Nat → Nat → RetryResult ε α
  | _, 0 => ⟨Except.ok none, [], 0⟩
  | attempt, fuel + 1 =>
    if (attempt : Int) > maxRetries then ⟨Except.ok none, [], 0⟩
    else
      match fn attempt with
      | Except.ok a => ⟨Except.ok (some a), [], 1⟩
      | Except.error e =>
        if (attempt : Int) = maxRetries then ⟨Except.error e, [], 1⟩
        else
          let rest := retryGo fn maxRetries baseDelayMs (attempt + 1) fuel
          ⟨rest.result, baseDelayMs * 2 ^ (attempt - 1) :: rest.waits,
            rest.calls + 1⟩

/-- retry (src/utils.js lines 100 to 113): run the attempt loop starting at
attempt 1. -/
def retry {ε α : Type} (fn : Nat → Except ε α) (maxRetries : Int)
    (baseDelayMs : Nat) : RetryResult ε α :=
  retryGo fn maxRetries baseDelayMs 1 (maxRetries.toNat + 1)

/-- PAGINATION.reviewsPerPage from src/config.js line 45. -/
def reviewsPerPage : Nat := 10

/-- totalPages of scrapeAppReviews (src/scrapeReviews.js lines 143 to 145):
Math.ceil of totalCount over the page size when a count was read, null
otherwise. -/
def totalPagesOf (totalCount : Option Nat) : Option Nat :=
  totalCount.map (fun t => (t + reviewsPerPage - 1) / reviewsPerPage)

/-- maxPages of scrapeAppReviews (line 150): totalPages when known, the 500
backstop otherwise. -/
def maxPagesOf (totalCount : Option Nat) : Nat :=
  (totalPagesOf totalCount).getD 500

/-- The count-hint stop test of line 166: totalPages is known and the
current page has reached it. -/
def pastTotalPages : Option Nat → Nat → Prop
  | some tp, p => tp ≤ p
  | none, _ => False

instance : (tp : Option Nat) → (p : Nat) → Decidable (pastTotalPages tp p)
  | some tpn, p => inferInstanceAs (Decidable (tpn ≤ p))
  | none, _ => inferInstanceAs (Decidable False)

/-- Result of the review pagination of one app: the collected reviews and
the pages whose batches were extracted, in order. -/
structure PageRun where
  reviews : List Review
  pages : List Nat
deriving DecidableEq, Repr

/-- The page loop of scrapeAppReviews (src/scrapeReviews.js lines 152 to
170). Page content is the batches oracle (extractReviewsFromPage per page)
and the presence of the rel next link is the hasNext oracle. Each
iteration appends the batch, then stops on an empty batch, then on the
count-hint test, then on a missing next link, in that order. -/
def paginate (batches : Nat → List Review) (hasNext : Nat → Bool)
    (totalPages : Option Nat) (maxPages : Nat) : Nat → Nat → PageRun
  | _, 0 => ⟨[], []⟩
  | pageNum, fuel + 1 =>
    if maxPages < pageNum then ⟨[], []⟩
    else
      if (batches pageNum).length = 0 then ⟨batches pageNum, [pageNum]⟩
      else if pastTotalPages totalPages pageNum then ⟨batches pageNum, [pageNum]⟩
      else if hasNext pageNum = false then ⟨batches pageNum, [pageNum]⟩
      else
        let rest := paginate batches hasNext totalPages maxPages (pageNum + 1) fuel
        ⟨batches pageNum ++ rest.reviews, pageNum :: rest.pages⟩

/-- scrapeAppReviews pagination (src/scrapeReviews.js lines 142 to 172):
read the total count, derive totalPages and maxPages, and run the page loop
from page 1. The fuel maxPages plus one covers every iteration the source
loop can perform. -/
def scrapeAppReviews (totalCount : Option Nat) (batches : Nat → List Review)
    (hasNext : Nat → Bool) : PageRun :=
  paginate batches hasNext (totalPagesOf totalCount) (maxPagesOf totalCount) 1
    (maxPagesOf totalCount + 1)

/-- JavaScript comparison a <= b where b may be undefined: comparison with
undefined is false. -/
def jsLeOpt (a : Nat) : Option Nat → Bool
  | some b => decide (a ≤ b)
  | none => false

/-- SEARCH.maxPages as read by collectAllApps (src/discoverApps.js line
388): the SEARCH object in src/config.js lines 7 to 16 defines no maxPages
field, so the read yields undefined. -/
def SEARCH_maxPages : Option Nat := none

/-- Result of catalog collection: accumulated apps and visited pages. -/
structure CollectResult where
  apps : List App
  pages : List Nat
deriving DecidableEq, Repr

/-- The per-page merge loop of collectAllApps (src/discoverApps.js lines
401 to 408): add each batch app whose slug is unseen, counting how many
were new. Returns the updated seen set, the updated accumulator and the
new-app count. -/
def addBatch : List String → List App → List App → List String × List App × Nat
  | seen, acc, [] => (seen, acc, 0)
  | seen, acc, a :: rest =>
    if a.slug ∈ seen then addBatch seen acc rest
    else
      let r := addBatch (seen ++ [a.slug]) (acc ++ [a]) rest
      (r.1, r.2.1, r.2.2 + 1)

/-- The catalog pagination loop of collectAllApps (src/discoverApps.js
lines 390 to 437): while pageNum <= maxPages, extract the page batch, merge
new apps, stop when a page after page 1 yields no new apps, or when no next
link is found, else navigate to the next page. The pages oracle gives the
extraction result per page and nextUrl the next link per page. -/
def collectLoop (pages : Nat → List App) (nextUrl : Nat → Option String)
    (maxPages : Option Nat) :
    Nat → List String → List App → Nat → CollectResult
  | _, _, acc, 0 => ⟨acc, []⟩
  | pageNum, seen, acc, fuel + 1 =>
    if jsLeOpt pageNum maxPages then
      let r := addBatch seen acc (pages pageNum)
      if r.2.2 = 0 ∧ 1 < pageNum then ⟨r.2.1, [pageNum]⟩
      else
        match nextUrl pageNum with
        | none => ⟨r.2.1, [pageNum]⟩
        | some _ =>
          let rest := collectLoop pages nextUrl maxPages (pageNum + 1) r.1 r.2.1 fuel
          ⟨rest.apps, pageNum :: rest.pages⟩
    else ⟨acc, []⟩

/-- collectAllApps (src/discoverApps.js lines 384 to 440): run the catalog
loop from page 1 with the maxPages bound read off SEARCH. -/
def collectAllApps (pages : Nat → List App) (nextUrl : Nat → Option String) :
    CollectResult :=
  collectLoop pages nextUrl SEARCH_maxPages 1 [] [] (SEARCH_maxPages.getD 0 + 1)

/-- The deduplication pass of discoverApps (src/discoverApps.js lines 481
to 488): keep the first app for each slug, preserving order. The seen
argument carries the keys of the bySlug map. -/
def dedupGo (seen : List String) : List App → List App
  | [] => []
  | a :: rest =>
    if a.slug ∈ seen then dedupGo seen rest
    else a :: dedupGo (seen ++ [a.slug]) rest

/-- Deduplication by slug with first occurrence winning, starting from an
empty map. -/
def dedupBySlug (apps : List App) : List App :=
  dedupGo [] apps

/-- The non-resume body of discoverApps (src/discoverApps.js lines 458 to
492): collect apps from the paginated catalog; if none were collected, fall
back to extracting the current page, which is still page 1 because the loop
never navigated; deduplicate and return (the same list is persisted to
apps.json at line 491). -/
def discoverRun (pages : Nat → List App) (nextUrl : Nat → Option String) :
    List App :=
  let collected := (collectAllApps pages nextUrl).apps
  let apps := if collected.length = 0 then collected ++ pages 1 else collected
  dedupBySlug apps

/-- discoverApps (src/discoverApps.js lines 445 to 496): return a non-empty
resume checkpoint verbatim, otherwise run discovery. -/
def discoverApps (resume : Bool) (checkpoint : Option (List App))
    (pages : Nat → List App) (nextUrl : Nat → Option String) : List App :=
  match (if resume then checkpoint else none) with
  | some ck => if 0 < ck.length then ck else discoverRun pages nextUrl
  | none => discoverRun pages nextUrl

/-! Concrete sample data used by counterexamples and witnesses. -/

/-- Sample app with slug a. -/
def appA : App := { name := "Alpha", slug := "a" }

/-- Sample app with slug b. -/
def appB : App := { name := "Beta", slug := "b" }

/-- Sample app with slug c. -/
def appC : App := { name := "Gamma", slug := "c" }

/-- Sample review for a given slug with a given text. -/
def mkReview (slug : String) (txt : String) : Review :=
  { app_name := slug, app_slug := slug, rating := some 5, review_text := txt }

/-- Review for app a. -/
def rA : Review := mkReview "a" "first"

/-- Second review for app a. -/
def rA2 : Review := mkReview "a" "second"

/-- Review for app b. -/
def rB : Review := mkReview "b" "first"

/-- Review for app c. -/
def rC : Review := mkReview "c" "first"

/-- Fetch oracle returning one review for app a. -/
def fetchC1 : App → List Review := fun _ => [rA]

/-- Fetch oracle returning one review for app b and none for app a. -/
def fetchC3 : App → List Review :=
  fun app => if app.slug = "b" then [rB] else []

/-- Fetch oracle returning one review for each of apps a and b. -/
def fetchW3 : App → List Review :=
  fun app => if app.slug = "a" then [rA] else [rB]

/-- Fetch oracle returning one review for app c and none otherwise. -/
def fetchW8 : App → List Review :=
  fun app => if app.slug = "c" then [rC] else []

/-- Batches oracle with two reviews on page 1 and none afterwards. -/
def c7batches : Nat → List Review :=
  fun p => if p = 1 then [rA, rA2] else []

/-- Catalog oracle with overlapping slugs on two pages. -/
def catalogPages : Nat → List App :=
  fun p => if p = 1 then [appA, appB] else if p = 2 then [appB, appC] else []

/-- Catalog next-link oracle that always offers a next page. -/
def catalogNext : Nat → Option String := fun _ => some "nextPageUrl"

/-- Filesystem holding one file whose contents are not valid JSON. -/
def fsWithBadFile : String → Option String :=
  fun nm => if nm = "apps.json" then some "not valid json" else none

/-- Parse function that fails, as JSON.parse does on invalid input. -/
def failingParse : String → Except String (List String) :=
  fun _ => Except.error "SyntaxError"

/-- Filesystem holding one well-formed file. -/
def fsPresent : String → Option String :=
  fun nm => if nm = "present.json" then some "[]" else none

/-- Parse function accepting only the empty array. -/
def parseEmptyList : String → Except String (List String) :=
  fun s => if s = "[]" then Except.ok [] else Except.error "SyntaxError"

/-! Helper lemmas about the set and map operations. -/

lemma mem_addToSet (l : List String) (s x : String) :
    x ∈ addToSet l s ↔ x ∈ l ∨ x = s := by
  unfold addToSet
  split
  · rename_i h
    constructor
    · exact Or.inl
    · rintro (hx | rfl)
      · exact hx
      · exact h
  · simp

lemma mem_addToSet_self (l : List String) (s : String) : s ∈ addToSet l s := by
  rw [mem_addToSet]
  exact Or.inr rfl

lemma mem_foldl_addToSet (l : List String) :
    ∀ (acc : List String) (x : String),
      x ∈ l.foldl addToSet acc ↔ x ∈ acc ∨ x ∈ l := by
  induction l with
  | nil => intro acc x; simp
  | cons s rest ih =>
    intro acc x
    simp only [List.foldl_cons]
    rw [ih, mem_addToSet]
    simp only [List.mem_cons]
    tauto

lemma mem_setFromList (l : List String) (x : String) :
    x ∈ setFromList l ↔ x ∈ l := by
  rw [setFromList, mem_foldl_addToSet]
  simp

/-! Claim C2: loadCheckpoint error behaviour. -/

/-- Claim C2, counterexample: with apps.json present but not parseable,
loadCheckpoint propagates the parse error instead of returning the supplied
default, refuting that it returns the default whenever the file is
unreadable and never raises for a file it cannot parse. -/
theorem loadCheckpoint_raises_on_unparseable_cex :
    loadCheckpoint fsWithBadFile failingParse "apps.json" [] =
      Except.error "SyntaxError"
    ∧ loadCheckpoint fsWithBadFile failingParse "apps.json" [] ≠
      Except.ok [] := by
  refine ⟨rfl, ?_⟩
  intro h
  exact Except.noConfusion h

/-- Claim C2, amended: loadCheckpoint returns the default exactly when the
file is absent; when the file is present it returns the parse outcome,
including propagating a parse error. -/
theorem loadCheckpoint_default_iff_absent {α : Type}
    (fileContents : String → Option String)
    (parseJson : String → Except String α) (filename : String)
    (defaultValue : α) :
    (fileContents filename = none →
      loadCheckpoint fileContents parseJson filename defaultValue =
        Except.ok defaultValue)
    ∧ (∀ content, fileContents filename = some content →
      loadCheckpoint fileContents parseJson filename defaultValue =
        parseJson content) := by
  constructor
  · intro h
    simp [loadCheckpoint, h]
  · intro content h
    simp [loadCheckpoint, h]

/-- Witness for the amended claim C2 at concrete inputs: a missing file
yields the default and a present file yields the parse result. -/
theorem loadCheckpoint_default_iff_absent_witness :
    loadCheckpoint fsPresent parseEmptyList "missing.json" ["d"] =
      Except.ok ["d"]
    ∧ loadCheckpoint fsPresent parseEmptyList "present.json" ["d"] =
      Except.ok [] := by
  constructor
  · exact (loadCheckpoint_default_iff_absent fsPresent parseEmptyList
      "missing.json" ["d"]).1 rfl
  · exact ((loadCheckpoint_default_iff_absent fsPresent parseEmptyList
      "present.json" ["d"]).2 "[]" rfl).trans rfl

/-! Claim C10: retry with a non-positive attempt budget. -/

/-- Claim C10: for every maxRetries below 1, the attempt loop body never
runs, so retry invokes the operation zero times, performs no waits and
resolves with undefined. -/
theorem retry_nonpositive_attempts {ε α : Type} (fn : Nat → Except ε α)
    (maxRetries : Int) (baseDelayMs : Nat) (h : maxRetries < 1) :
    retry fn maxRetries baseDelayMs = ⟨Except.ok none, [], 0⟩ := by
  have h1 : ((1 : Nat) : Int) > maxRetries := by omega
  simp [retry, retryGo, h1]
  intro h2
  exact absurd h2 (by omega)

/-- Witness for claim C10 at maxRetries zero. -/
theorem retry_nonpositive_attempts_witness :
    retry (fun _ => (Except.error "boom" : Except String Nat)) 0 5000 =
      ⟨Except.ok none, [], 0⟩ :=
  retry_nonpositive_attempts (fun _ => (Except.error "boom" : Except String Nat))
    0 5000 (by decide)

/-! Claim C4: the catalog pagination loop of collectAllApps. -/

/-- Claim C4: because the SEARCH object defines no maxPages field, the
while condition compares page 1 against undefined and is false, so the
catalog loop of collectAllApps extracts no page at all and returns an empty
result for every catalog state, contradicting a positive bound that admits
the first listing page. -/
theorem collectAllApps_extracts_no_page (pages : Nat → List App)
    (nextUrl : Nat → Option String) :
    collectAllApps pages nextUrl = ⟨[], []⟩ := rfl

/-! Claim C9: discovery over two overlapping catalog pages. -/

/-- Claim C9: with two catalog pages carrying slugs a, b and b, c and a
next link always present, discoverApps returns only the page 1 apps a and b
because the pagination loop never runs and discovery falls back to a single
page extraction; the specified result a, b, c is not produced. -/
theorem discoverApps_two_pages_eval :
    discoverApps false none catalogPages catalogNext = [appA, appB]
    ∧ discoverApps false none catalogPages catalogNext ≠ [appA, appB, appC] := by
  constructor
  · rfl
  · decide

/-! Claim C1: order of the three persistence steps per entity. -/

/-- Claim C1, counterexample: in a run over the single app a, the first
write of a scraped-slug set containing a happens before the per-app file
write and before any combined checkpoint write, refuting that the slug is
marked scraped only after both record files are durably written. -/
theorem scrapedSlugs_written_first_cex :
    slugMarkedOnlyAfterPersisted
      (scrapeAllReviews [appA] true none [] [] fetchC1).trace "a" = false := by
  decide

/-! Claim C5: retry with an operation that fails on every attempt. -/

lemma retryGo_all_fail {ε α : Type} (fn : Nat → Except ε α) (errs : Nat → ε)
    (baseDelayMs n : Nat)
    (hfail : ∀ j, 1 ≤ j → j ≤ n → fn j = Except.error (errs j)) :
    ∀ k a fuel, 1 ≤ a → a + k = n → k + 1 ≤ fuel →
      retryGo fn (n : Int) baseDelayMs a fuel =
        ⟨Except.error (errs n),
          (List.range' (a - 1) k).map (fun i => baseDelayMs * 2 ^ i), k + 1⟩ := by
  intro k
  induction k with
  | zero =>
    intro a fuel h1 h2 h3
    obtain ⟨f, rfl⟩ : ∃ f, fuel = f + 1 := ⟨fuel - 1, by omega⟩
    obtain rfl : a = n := by omega
    have hgt : ¬ ((a : Int) > (a : Int)) := by omega
    simp only [retryGo, hgt, if_false]
    rw [hfail a h1 le_rfl]
    simp
  | succ k ih =>
    intro a fuel h1 h2 h3
    obtain ⟨f, rfl⟩ : ∃ f, fuel = f + 1 := ⟨fuel - 1, by omega⟩
    have hgt : ¬ ((a : Int) > (n : Int)) := by omega
    have hne : ¬ ((a : Int) = (n : Int)) := by omega
    simp only [retryGo, hgt, if_false]
    rw [hfail a h1 (by omega)]
    simp only [hne, if_false]
    rw [ih (a + 1) f (by omega) (by omega) (by omega)]
    have hr : List.range' (a - 1) (k + 1) = (a - 1) :: List.range' (a - 1 + 1) k :=
      List.range'_succ (a - 1) k 1
    have ha : a - 1 + 1 = a := by omega
    rw [hr, ha]
    simp

/-- Claim C5: when the operation fails on attempts 1 through n with n at
least 1, retry invokes it exactly n times, waits baseDelayMs times 2 to the
power attempt minus 1 between consecutive attempts, and settles with the
error of the final attempt unchanged. -/
theorem retry_all_fail_spec {ε α : Type} (fn : Nat → Except ε α)
    (errs : Nat → ε) (n baseDelayMs : Nat) (hn : 1 ≤ n)
    (hfail : ∀ j, 1 ≤ j → j ≤ n → fn j = Except.error (errs j)) :
    retry fn (n : Int) baseDelayMs =
      ⟨Except.error (errs n),
        (List.range' 0 (n - 1)).map (fun i => baseDelayMs * 2 ^ i), n⟩ := by
  have h := retryGo_all_fail fn errs baseDelayMs n hfail (n - 1) 1
    (((n : Int)).toNat + 1) le_rfl (by omega) (by omega)
  rw [retry, h]
  congr 1
  omega

/-- Witness for claim C5 with three attempts and a base delay of 1000:
waits of 1000 then 2000 milliseconds, three invocations, the final error
propagated. -/
theorem retry_all_fail_witness :
    retry (fun _ => (Except.error "fail" : Except String Nat))
        ((3 : Nat) : Int) 1000 =
      ⟨Except.error "fail", [1000, 2000], 3⟩ := by
  have h := retry_all_fail_spec (fun _ => (Except.error "fail" : Except String Nat))
    (fun _ => "fail") 3 1000 (by omega) (fun j h1 h2 => rfl)
  exact h.trans rfl

/-! Claim C1, amended: the actual per-entity write order. -/

lemma getElem?_cons3 {γ : Type} (a b c : γ) (l : List γ) (k : Nat) :
    (a :: b :: c :: l)[k + 3]? = l[k]? := by
  rw [show k + 3 = k + 1 + 1 + 1 from rfl]
  simp [List.getElem?_cons_succ]

lemma processApps_mark_order (fetch : App → List Review) :
    ∀ (apps : List App) (bySlug : JsMap) (scraped : List String) (s : String),
      s ∈ apps.map App.slug →
      ∃ k slugs revs flat,
        (processApps fetch apps bySlug scraped).1[k]? =
          some (WriteEvent.scrapedSlugs slugs)
        ∧ s ∈ slugs
        ∧ (processApps fetch apps bySlug scraped).1[k + 1]? =
          some (WriteEvent.appReviews s revs)
        ∧ (processApps fetch apps bySlug scraped).1[k + 2]? =
          some (WriteEvent.allReviews flat) := by
  intro apps
  induction apps with
  | nil =>
    intro bySlug scraped s hs
    simp at hs
  | cons app rest ih =>
    intro bySlug scraped s hs
    simp only [List.map_cons, List.mem_cons] at hs
    rcases hs with rfl | hs
    · refine ⟨0, addToSet scraped app.slug, fetch app,
        flattenMap (mapSet bySlug app.slug (fetch app)), ?_,
        mem_addToSet_self scraped app.slug, ?_, ?_⟩
      · simp [processApps]
      · simp [processApps]
      · simp [processApps]
    · obtain ⟨k, slugs, revs, flat, h1, h2, h3, h4⟩ :=
        ih (mapSet bySlug app.slug (fetch app)) (addToSet scraped app.slug) s hs
      refine ⟨k + 3, slugs, revs, flat, ?_, h2, ?_, ?_⟩
      · simp only [processApps]
        rw [getElem?_cons3]
        exact h1
      · simp only [processApps]
        rw [show k + 3 + 1 = k + 1 + 3 from rfl, getElem?_cons3]
        exact h3
      · simp only [processApps]
        rw [show k + 3 + 2 = k + 2 + 3 from rfl, getElem?_cons3]
        exact h4

/-- Claim C1, amended: for every entity the run processes, the three
persistence writes happen consecutively with the scraped-slug set written
first, already containing the slug, followed by the per-entity record file
and then the combined checkpoint; so a crash between the steps can leave a
slug marked scraped whose record files are not yet written. -/
theorem scrapedSlugs_written_before_records (apps : List App) (resume : Bool)
    (startFromSlug : Option String) (scrapedCkpt : List String)
    (allReviewsCkpt : List Review) (fetch : App → List Review) (s : String)
    (hs : s ∈ (toProcessOf apps (setFromList (loadedScraped resume scrapedCkpt))
      startFromSlug).map App.slug) :
    ∃ k slugs revs flat,
      (scrapeAllReviews apps resume startFromSlug scrapedCkpt allReviewsCkpt
        fetch).trace[k]? = some (WriteEvent.scrapedSlugs slugs)
      ∧ s ∈ slugs
      ∧ (scrapeAllReviews apps resume startFromSlug scrapedCkpt allReviewsCkpt
        fetch).trace[k + 1]? = some (WriteEvent.appReviews s revs)
      ∧ (scrapeAllReviews apps resume startFromSlug scrapedCkpt allReviewsCkpt
        fetch).trace[k + 2]? = some (WriteEvent.allReviews flat) := by
  unfold scrapeAllReviews
  split
  · rename_i hcond
    exfalso
    have hlen := hcond.1
    rw [List.length_eq_zero] at hlen
    rw [hlen] at hs
    simp at hs
  · exact processApps_mark_order fetch _ _ _ s hs

/-- Witness for the amended claim C1 in a concrete one-app run. -/
theorem scrapedSlugs_written_before_records_witness :
    ∃ k slugs revs flat,
      (scrapeAllReviews [appA] true none [] [] fetchC1).trace[k]? =
        some (WriteEvent.scrapedSlugs slugs)
      ∧ "a" ∈ slugs
      ∧ (scrapeAllReviews [appA] true none [] [] fetchC1).trace[k + 1]? =
        some (WriteEvent.appReviews "a" revs)
      ∧ (scrapeAllReviews [appA] true none [] [] fetchC1).trace[k + 2]? =
        some (WriteEvent.allReviews flat) :=
  scrapedSlugs_written_before_records [appA] true none [] [] fetchC1 "a"
    (by decide)

/-! Claim C8: resume filtering and the fast path. -/

lemma processedSlugs_processApps (fetch : App → List Review) :
    ∀ (apps : List App) (bySlug : JsMap) (scraped : List String),
      processedSlugs (processApps fetch apps bySlug scraped).1 =
        apps.map App.slug := by
  intro apps
  induction apps with
  | nil => intro bySlug scraped; simp [processApps, processedSlugs]
  | cons app rest ih =>
    intro bySlug scraped
    simp only [processApps, processedSlugs, List.map_cons]
    rw [ih]

lemma toProcessOf_setFromList (apps : List App) (scrapedCkpt : List String) :
    toProcessOf apps (setFromList scrapedCkpt) none =
      apps.filter (fun a => decide (a.slug ∉ scrapedCkpt)) := by
  simp only [toProcessOf]
  apply List.filter_congr
  intro a _
  rw [decide_eq_decide]
  rw [mem_setFromList]

/-- Claim C8: a resumed run with no startFromSlug processes exactly the
apps whose slug is not contained in the loaded scraped-slug checkpoint, in
list order; and when that filter leaves nothing while apps exist, the run
returns the loaded combined checkpoint verbatim with no browser launched. -/
theorem scrapeAllReviews_resume_filter (apps : List App)
    (scrapedCkpt : List String) (allReviewsCkpt : List Review)
    (fetch : App → List Review) :
    processedSlugs
        (scrapeAllReviews apps true none scrapedCkpt allReviewsCkpt fetch).trace =
      (apps.filter (fun a => decide (a.slug ∉ scrapedCkpt))).map App.slug
    ∧ (apps.filter (fun a => decide (a.slug ∉ scrapedCkpt)) = [] → apps ≠ [] →
        (scrapeAllReviews apps true none scrapedCkpt allReviewsCkpt fetch).result
            = allReviewsCkpt
        ∧ (scrapeAllReviews apps true none scrapedCkpt allReviewsCkpt
            fetch).openedBrowser = false) := by
  have hload : loadedScraped true scrapedCkpt = scrapedCkpt := rfl
  unfold scrapeAllReviews
  rw [hload, toProcessOf_setFromList]
  split
  · rename_i hcond
    refine ⟨?_, fun _ _ => ⟨rfl, rfl⟩⟩
    have hlen := hcond.1
    rw [List.length_eq_zero] at hlen
    rw [hlen]
    simp [processedSlugs]
  · rename_i hcond
    constructor
    · rw [processedSlugs_processApps]
    · intro hfe hne
      exfalso
      exact hcond ⟨by rw [hfe]; rfl, by cases apps with
        | nil => exact absurd rfl hne
        | cons a l => simp⟩

/-- Witness for claim C8: with scraped slugs a and b and the app list a, b,
c only c is processed; and when every app is already scraped, the loaded
combined checkpoint is returned with no browser session. -/
theorem scrapeAllReviews_resume_filter_witness :
    processedSlugs
        (scrapeAllReviews [appA, appB, appC] true none ["a", "b"] [] fetchW8).trace
      = ["c"]
    ∧ (scrapeAllReviews [appA, appB] true none ["a", "b"] [rA] fetchW8).result
      = [rA]
    ∧ (scrapeAllReviews [appA, appB] true none ["a", "b"] [rA]
        fetchW8).openedBrowser = false := by
  refine ⟨?_, ?_, ?_⟩
  · exact (scrapeAllReviews_resume_filter [appA, appB, appC] ["a", "b"] []
      fetchW8).1.trans (by decide)
  · exact ((scrapeAllReviews_resume_filter [appA, appB] ["a", "b"] [rA]
      fetchW8).2 (by decide) (by decide)).1
  · exact ((scrapeAllReviews_resume_filter [appA, appB] ["a", "b"] [rA]
      fetchW8).2 (by decide) (by decide)).2

/-! Claim C3: growth of the combined checkpoint across writes. -/

lemma mapSet_fresh :
    ∀ (m : JsMap) (k : String) (v : List Review),
      k ∉ mapKeys m → mapSet m k v = m ++ [(k, v)] := by
  intro m
  induction m with
  | nil => intro k v _; rfl
  | cons kv rest ih =>
    intro k v hk
    obtain ⟨k2, v2⟩ := kv
    simp only [mapKeys, List.mem_cons, not_or] at hk
    obtain ⟨h1, h2⟩ := hk
    simp only [mapSet]
    rw [if_neg (fun h => h1 h.symm), ih k v h2]
    rfl

lemma flattenMap_append (m1 m2 : JsMap) :
    flattenMap (m1 ++ m2) = flattenMap m1 ++ flattenMap m2 := by
  induction m1 with
  | nil => rfl
  | cons kv rest ih =>
    obtain ⟨k, v⟩ := kv
    simp only [List.cons_append, flattenMap, List.append_eq]
    rw [ih, List.append_assoc]

lemma mapKeys_append (m1 m2 : JsMap) :
    mapKeys (m1 ++ m2) = mapKeys m1 ++ mapKeys m2 := by
  induction m1 with
  | nil => rfl
  | cons kv rest ih =>
    obtain ⟨k, v⟩ := kv
    simp only [List.cons_append, mapKeys, List.append_eq]
    rw [ih]

lemma mapKeys_mapPush :
    ∀ (m : JsMap) (k : String) (r : Review) (x : String),
      x ∈ mapKeys (mapPush m k r) → x ∈ mapKeys m ∨ x = k := by
  intro m
  induction m with
  | nil =>
    intro k r x hx
    simp only [mapPush, mapKeys, List.mem_singleton] at hx
    exact Or.inr hx
  | cons kv rest ih =>
    intro k r x hx
    obtain ⟨k2, v⟩ := kv
    by_cases h : k2 = k
    · simp only [mapPush, if_pos h, mapKeys] at hx
      exact Or.inl hx
    · simp only [mapPush, if_neg h, mapKeys, List.mem_cons] at hx
      rcases hx with rfl | hx
      · exact Or.inl (by simp [mapKeys])
      · rcases ih k r x hx with h2 | h2
        · exact Or.inl (by simp [mapKeys, h2])
        · exact Or.inr h2

lemma mapKeys_foldl_push :
    ∀ (rs : List Review) (m : JsMap) (x : String),
      x ∈ mapKeys (rs.foldl (fun acc r => mapPush acc r.app_slug r) m) →
        x ∈ mapKeys m ∨ x ∈ rs.map Review.app_slug := by
  intro rs
  induction rs with
  | nil => intro m x hx; exact Or.inl hx
  | cons r rest ih =>
    intro m x hx
    simp only [List.foldl_cons] at hx
    rcases ih (mapPush m r.app_slug r) x hx with h | h
    · rcases mapKeys_mapPush m r.app_slug r x h with h2 | h2
      · exact Or.inl h2
      · exact Or.inr (by simp [h2])
    · exact Or.inr (List.mem_cons_of_mem _ h)

lemma mapKeys_groupBySlug (rs : List Review) (x : String) :
    x ∈ mapKeys (groupBySlug rs) → x ∈ rs.map Review.app_slug := by
  intro hx
  rcases mapKeys_foldl_push rs [] x hx with h | h
  · simp [mapKeys] at h
  · exact h

lemma processApps_chain (fetch : App → List Review) :
    ∀ (apps : List App) (bySlug : JsMap) (scraped : List String),
      (apps.map App.slug).Nodup →
      (∀ a ∈ apps, a.slug ∉ mapKeys bySlug) →
      List.Chain' (fun a b => a ≤ b)
        ((flattenMap bySlug).length ::
          allReviewsLens (processApps fetch apps bySlug scraped).1) := by
  intro apps
  induction apps with
  | nil =>
    intro bySlug scraped _ _
    simp only [processApps, allReviewsLens]
    exact List.chain'_singleton _
  | cons app rest ih =>
    intro bySlug scraped hnd hfresh
    have hfreshHead : app.slug ∉ mapKeys bySlug := hfresh app (by simp)
    have hset : mapSet bySlug app.slug (fetch app) =
        bySlug ++ [(app.slug, fetch app)] :=
      mapSet_fresh bySlug app.slug (fetch app) hfreshHead
    simp only [List.map_cons, List.nodup_cons] at hnd
    obtain ⟨hnotin, hndrest⟩ := hnd
    simp only [processApps, allReviewsLens]
    rw [List.chain'_cons]
    constructor
    · rw [hset, flattenMap_append]
      simp [flattenMap]
    · have hkey : ∀ a ∈ rest,
          a.slug ∉ mapKeys (bySlug ++ [(app.slug, fetch app)]) := by
        intro a ha hmem
        rw [mapKeys_append] at hmem
        simp only [mapKeys, List.mem_append, List.mem_cons] at hmem
        rcases hmem with hmem | hmem
        · exact hfresh a (List.mem_cons_of_mem _ ha) hmem
        · rcases hmem with hmem | hmem
          · exact hnotin (hmem ▸ List.mem_map_of_mem App.slug ha)
          · simp [mapKeys] at hmem
      rw [hset]
      exact ih (bySlug ++ [(app.slug, fetch app)]) (addToSet scraped app.slug)
        hndrest hkey

lemma toProcessOf_sublist (apps : List App) (scrapedSet : List String)
    (startFromSlug : Option String) :
    ((toProcessOf apps scrapedSet startFromSlug).map App.slug).Sublist
      (apps.map App.slug) := by
  cases startFromSlug with
  | none => exact (List.filter_sublist apps).map App.slug
  | some s => exact (List.filter_sublist apps).map App.slug

lemma toProcessOf_subset (apps : List App) (scrapedSet : List String)
    (startFromSlug : Option String) (a : App)
    (ha : a ∈ toProcessOf apps scrapedSet startFromSlug) : a ∈ apps := by
  cases startFromSlug with
  | none => exact List.mem_of_mem_filter ha
  | some s => exact List.mem_of_mem_filter ha

/-- Claim C3, counterexample: with a pre-existing combined checkpoint
holding two reviews for app a, an empty scraped-slug checkpoint and the app
order b then a, where re-scraping a yields nothing, the successive
all_reviews.json writes hold 3 then 1 records, refuting that the combined
checkpoint is non-shrinking for every entity sequence and every
pre-existing checkpoint contents. -/
theorem combined_checkpoint_shrinks_cex :
    ¬ List.Chain' (fun a b => a ≤ b)
      (allReviewsLens
        (scrapeAllReviews [appB, appA] true none [] [rA, rA2] fetchC3).trace) := by
  intro h
  have h2 : List.Chain' (fun a b => a ≤ b) [3, 1] := h
  rw [List.chain'_cons] at h2
  exact absurd h2.1 (by omega)

/-- Claim C3, amended: within one run the successive all_reviews.json
writes are non-shrinking provided the app slugs are pairwise distinct and
no record in the loaded combined checkpoint belongs to an app in the list;
without those conditions a re-scraped slug replaces its previous records
and the flattened sequence can shrink. -/
theorem combined_checkpoint_nonshrinking_of_disjoint (apps : List App)
    (resume : Bool) (startFromSlug : Option String)
    (scrapedCkpt : List String) (allReviewsCkpt : List Review)
    (fetch : App → List Review) (hnd : (apps.map App.slug).Nodup)
    (hdisj : ∀ r ∈ allReviewsCkpt, r.app_slug ∉ apps.map App.slug) :
    List.Chain' (fun a b => a ≤ b)
      (allReviewsLens
        (scrapeAllReviews apps resume startFromSlug scrapedCkpt allReviewsCkpt
          fetch).trace) := by
  unfold scrapeAllReviews
  split
  · simp [allReviewsLens]
  · have hnd2 : ((toProcessOf apps (setFromList (loadedScraped resume scrapedCkpt))
        startFromSlug).map App.slug).Nodup :=
      (toProcessOf_sublist apps _ startFromSlug).nodup hnd
    have hfresh : ∀ a ∈ toProcessOf apps
        (setFromList (loadedScraped resume scrapedCkpt)) startFromSlug,
        a.slug ∉ mapKeys (groupBySlug (loadedReviews resume allReviewsCkpt)) := by
      intro a ha hmem
      have hslug := mapKeys_groupBySlug _ _ hmem
      obtain ⟨r, hr, hreq⟩ := List.mem_map.mp hslug
      have hrck : r ∈ allReviewsCkpt := by
        cases resume with
        | false => simp [loadedReviews] at hr
        | true => simpa [loadedReviews] using hr
      have hain : a.slug ∈ apps.map App.slug :=
        List.mem_map_of_mem App.slug (toProcessOf_subset apps _ startFromSlug a ha)
      exact hdisj r hrck (hreq ▸ hain)
    have h := processApps_chain fetch _ _
      (setFromList (loadedScraped resume scrapedCkpt)) hnd2 hfresh
    exact (List.chain'_cons'.mp h).2

/-- Witness for the amended claim C3: distinct apps a and b with an empty
pre-existing checkpoint give non-shrinking combined writes. -/
theorem combined_checkpoint_nonshrinking_witness :
    List.Chain' (fun a b => a ≤ b)
      (allReviewsLens
        (scrapeAllReviews [appA, appB] true none [] [] fetchW3).trace) :=
  combined_checkpoint_nonshrinking_of_disjoint [appA, appB] true none [] []
    fetchW3 (by decide) (by simp)

/-! Claims C6 and C7: review pagination termination. -/

lemma paginate_pages_le (batches : Nat → List Review) (hasNext : Nat → Bool)
    (totalPages : Option Nat) (maxPages : Nat) :
    ∀ (fuel pageNum p : Nat),
      p ∈ (paginate batches hasNext totalPages maxPages pageNum fuel).pages →
      pageNum ≤ p ∧ p ≤ maxPages := by
  intro fuel
  induction fuel with
  | zero =>
    intro pageNum p hp
    simp [paginate] at hp
  | succ fuel ih =>
    intro pageNum p hp
    simp only [paginate] at hp
    by_cases h1 : maxPages < pageNum
    · rw [if_pos h1] at hp
      simp at hp
    · rw [if_neg h1] at hp
      by_cases h2 : (batches pageNum).length = 0
      · rw [if_pos h2] at hp
        simp at hp
        omega
      · rw [if_neg h2] at hp
        by_cases h3 : pastTotalPages totalPages pageNum
        · rw [if_pos h3] at hp
          simp at hp
          omega
        · rw [if_neg h3] at hp
          by_cases h4 : hasNext pageNum = false
          · rw [if_pos h4] at hp
            simp at hp
            omega
          · rw [if_neg h4] at hp
            simp only [List.mem_cons] at hp
            rcases hp with rfl | hp
            · omega
            · have := ih (pageNum + 1) p hp
              omega

lemma paginate_pages_full (batches : Nat → List Review) (hasNext : Nat → Bool)
    (tp : Nat) (hb : ∀ p, (batches p).length ≠ 0)
    (hn : ∀ p, hasNext p = true) :
    ∀ (fuel pageNum : Nat), 1 ≤ pageNum → pageNum ≤ tp →
      tp + 1 ≤ pageNum + fuel →
      (paginate batches hasNext (some tp) tp pageNum fuel).pages =
        List.range' pageNum (tp + 1 - pageNum) := by
  intro fuel
  induction fuel with
  | zero =>
    intro pageNum h0 h1 h2
    exfalso
    omega
  | succ fuel ih =>
    intro pageNum h0 h1 h2
    simp only [paginate]
    rw [if_neg (by omega : ¬ tp < pageNum)]
    rw [if_neg (hb pageNum)]
    by_cases heq : tp ≤ pageNum
    · rw [if_pos (show pastTotalPages (some tp) pageNum from heq)]
      have he : tp + 1 - pageNum = 1 := by omega
      rw [he]
      rfl
    · rw [if_neg (show ¬ pastTotalPages (some tp) pageNum from heq)]
      rw [if_neg (by simp [hn pageNum] : ¬ hasNext pageNum = false)]
      have hrec := ih (pageNum + 1) (by omega) (by omega) (by omega)
      show pageNum ::
          (paginate batches hasNext (some tp) tp (pageNum + 1) fuel).pages =
        List.range' pageNum (tp + 1 - pageNum)
      rw [hrec]
      have e1 : tp + 1 - (pageNum + 1) = tp - pageNum := by omega
      have e2 : tp + 1 - pageNum = (tp - pageNum) + 1 := by omega
      rw [e1, e2, List.range'_succ]

/-- Claim C6: with a total-count hint, scrapeAppReviews extracts no page
beyond the ceiling of the count over the page size, whatever the next-link
oracle says; and with a hint of 25 and page size 10, nonempty batches and a
next link always present, exactly pages 1, 2 and 3 are extracted. -/
theorem scrapeAppReviews_respects_total_pages (t : Nat)
    (batches : Nat → List Review) (hasNext : Nat → Bool) :
    (∀ p ∈ (scrapeAppReviews (some t) batches hasNext).pages,
        p ≤ (t + reviewsPerPage - 1) / reviewsPerPage)
    ∧ ((∀ p, (batches p).length ≠ 0) → (∀ p, hasNext p = true) → t = 25 →
        (scrapeAppReviews (some t) batches hasNext).pages = [1, 2, 3]) := by
  constructor
  · intro p hp
    exact (paginate_pages_le batches hasNext (totalPagesOf (some t))
      (maxPagesOf (some t)) (maxPagesOf (some t) + 1) 1 p hp).2
  · intro hb hn ht
    subst ht
    have h := paginate_pages_full batches hasNext 3 hb hn 4 1 (by omega)
      (by omega) (by omega)
    exact h.trans (by rfl)

/-- Witness for claim C6: constant nonempty batches with an ever-present
next link and a count hint of 25 stop after exactly pages 1, 2, 3. -/
theorem scrapeAppReviews_respects_total_pages_witness :
    (scrapeAppReviews (some 25) (fun _ => [rA]) (fun _ => true)).pages =
      [1, 2, 3] :=
  (scrapeAppReviews_respects_total_pages 25 (fun _ => [rA]) (fun _ => true)).2
    (fun p => by decide) (fun p => rfl) rfl

/-- Claim C7: when page 1 yields records but page 2 yields none, the loop
stops at page 2 with only the page 1 records collected, for every count
hint whose derived page bound admits page 2, because the empty-batch test
runs before the count-hint and next-link tests. -/
theorem scrapeAppReviews_empty_batch_stops (totalCount : Option Nat)
    (batches : Nat → List Review) (hasNext : Nat → Bool)
    (h1 : (batches 1).length ≠ 0) (h2 : batches 2 = [])
    (hnx : hasNext 1 = true) (hmp : 2 ≤ maxPagesOf totalCount) :
    (scrapeAppReviews totalCount batches hasNext).pages = [1, 2]
    ∧ (scrapeAppReviews totalCount batches hasNext).reviews = batches 1 := by
  have hstop1 : ¬ pastTotalPages (totalPagesOf totalCount) 1 := by
    cases totalCount with
    | none => simp [totalPagesOf, pastTotalPages]
    | some t =>
      have hmp2 : 2 ≤ (t + 10 - 1) / 10 := hmp
      show ¬ ((t + 10 - 1) / 10 ≤ 1)
      omega
  obtain ⟨m, hm⟩ : ∃ m, maxPagesOf totalCount = m + 2 :=
    ⟨maxPagesOf totalCount - 2, by omega⟩
  have hpage2 : paginate batches hasNext (totalPagesOf totalCount) (m + 2) 2
      (m + 1 + 1) = ⟨batches 2, [2]⟩ := by
    simp only [paginate]
    rw [if_neg (by omega : ¬ m + 2 < 2),
      if_pos (show (batches 2).length = 0 by rw [h2]; rfl)]
  unfold scrapeAppReviews
  rw [hm]
  simp only [paginate]
  rw [if_neg (by omega : ¬ m + 2 < 1)]
  rw [if_neg h1]
  rw [if_neg hstop1]
  rw [if_neg (by simp [hnx] : ¬ hasNext 1 = false)]
  constructor
  · show 1 :: (paginate batches hasNext (totalPagesOf totalCount) (m + 2) 2
        (m + 1 + 1)).pages = [1, 2]
    rw [hpage2]
  · show batches 1 ++ (paginate batches hasNext (totalPagesOf totalCount)
        (m + 2) 2 (m + 1 + 1)).reviews = batches 1
    rw [hpage2]
    show batches 1 ++ batches 2 = batches 1
    rw [h2]
    simp

/-- Witness for claim C7: a count hint of 25 suggests three pages, yet an
empty page 2 stops collection at page 2 with only the first batch kept. -/
theorem scrapeAppReviews_empty_batch_stops_witness :
    (scrapeAppReviews (some 25) c7batches (fun _ => true)).pages = [1, 2]
    ∧ (scrapeAppReviews (some 25) c7batches (fun _ => true)).reviews =
      [rA, rA2] := by
  have h := scrapeAppReviews_empty_batch_stops (some 25) c7batches
    (fun _ => true) (by decide) rfl rfl (by decide)
  exact ⟨h.1, h.2.trans rfl⟩

end Scraper
